import Mathlib

/-!
Shallow embedding of the search-execution core of the fast-pfurious-search
extension: the multi-pattern `FastPfuriousExecutor` (pattern splitting,
library-path resolution, command building, remote exit-code handling,
output parsing, and the batched orchestrator `executeSearch`), translated
from `src/core/settingsManager.ts`.

JavaScript string primitives (`split`, `trim`, `includes`, `replace`,
`toUpperCase`) and the two anchored parsing regexes are modelled by
structurally recursive functions on `List Char`, so every definition
evaluates by kernel reduction.  The external collaborators are parameters:
`connection.sendCommand` is a function from the built command string to its
`{code, stdout, stderr}` result, and each pattern's cancellation token is a
function from the pattern to the value of `isCancellationRequested` at the
point where the code checks it.
-/

namespace FastPfurious

/-- JavaScript `String.prototype.split` with a single-character separator,
on character lists (`"".split(sep)` yields `[""]`). -/
def splitCharList (sep : Char) : List Char → List (List Char)
  | [] => [[]]
  | c :: rest =>
    let r := splitCharList sep rest
    if c = sep then [] :: r
    else
      match r with
      | [] => [[c]]
      | h :: t => (c :: h) :: t

/-- JavaScript `String.prototype.trim`: drop whitespace from both ends. -/
def trimCharList (cs : List Char) : List Char :=
  ((cs.dropWhile Char.isWhitespace).reverse.dropWhile Char.isWhitespace).reverse

def jsTrim (s : String) : String := String.mk (trimCharList s.data)

def jsSplit (s : String) (sep : Char) : List String :=
  (splitCharList sep s.data).map String.mk

/-- Prefix test on character lists. -/
def isPrefixCharList : List Char → List Char → Bool
  | [], _ => true
  | _ :: _, [] => false
  | a :: p, b :: l => a = b && isPrefixCharList p l

/-- Substring occurrence test: JavaScript `String.prototype.includes`. -/
def containsCharList (pat : List Char) : List Char → Bool
  | [] => pat.isEmpty
  | c :: rest => isPrefixCharList pat (c :: rest) || containsCharList pat rest

def jsIncludes (s sub : String) : Bool := containsCharList sub.data s.data

/-- JavaScript `String.prototype.toUpperCase`, restricted to ASCII (all
names handled by the executor are ASCII). -/
def jsToUpper (s : String) : String := String.mk (s.data.map Char.toUpper)

/-- Value of a decimal digit string, as computed by `parseInt` on the
digit-only capture of the parsing regexes. -/
def digitsToNat (ds : List Char) : Nat :=
  ds.foldl (fun acc c => acc * 10 + (c.toNat - '0'.toNat)) 0

/-- Result of `connection.sendCommand` for one command
(`{code, stdout, stderr}`). -/
structure CommandResult where
  code : Int
  stdout : String
  stderr : String
deriving DecidableEq

/-- One parsed output line of a hit (`{number, content, isContext}`). -/
structure SearchHitLine where
  number : Nat
  content : String
  isContext : Bool
deriving DecidableEq

/-- One hit: all lines found for one resource path
(`{path, lines, readonly, label}` in the source; `readonly` is always
created as `false`). -/
structure SearchHit where
  path : String
  lines : List SearchHitLine
  readonly : Bool
  label : String
deriving DecidableEq

/-- A per-pattern failure record (`{pattern, error}`). -/
structure PatternError where
  pattern : String
  error : String
deriving DecidableEq

/-- The option fields the executor reads from `FastPfuriousOptions`.  In
the source these are optional (`caseSensitive?`, `smartSearchRegex?`,
`afterContext?`); `undefined` booleans behave as `false` under the `!`
tests and an absent `afterContext` behaves as `0`, which is how they are
collapsed here. -/
structure FastPfuriousOptions where
  searchTerm : String
  libraries : List String
  caseSensitive : Bool
  smartSearchRegex : Bool
  afterContext : Nat
deriving DecidableEq

/-- `FastPfuriousExecutor.splitPatterns`: split each entry on commas, trim
each part, and keep the non-empty ones, preserving order. -/
def splitPatterns (libraries : List String) : List String :=
  libraries.foldl
    (fun patterns lib =>
      patterns ++ (((jsSplit lib ',').map jsTrim).filter (fun p => p.length > 0)))
    []

/-- `FastPfuriousExecutor.buildLibraryPath`: map a single pattern to the
QSYS resource path.  Faithful to the source: it is total and never
rejects a pattern; the trailing fallback is only reachable from the
slash-containing branch with a segment count other than 2 or 3. -/
def buildLibraryPath (pattern : String) : String :=
  if jsIncludes pattern ("/") then
    let parts := jsSplit pattern '/'
    if parts.length = 2 then
      let lib := parts.getD 0 ""
      let file := parts.getD 1 ""
      "/QSYS.LIB/" ++ lib ++ ".LIB/" ++ file ++ ".FILE"
    else if parts.length = 3 then
      let lib := parts.getD 0 ""
      let file := parts.getD 1 ""
      let member := parts.getD 2 ""
      if member = "*" then
        "/QSYS.LIB/" ++ lib ++ ".LIB/" ++ file ++ ".FILE/*.MBR"
      else
        "/QSYS.LIB/" ++ lib ++ ".LIB/" ++ file ++ ".FILE/" ++ member ++ ".MBR"
    else
      "/QSYS.LIB/" ++ jsToUpper pattern ++ ".LIB"
  else if pattern = "*ALL" ∨ pattern = "ALL" then
    "/QSYS.LIB/*.LIB"
  else if jsIncludes pattern ("*") then
    "/QSYS.LIB/" ++ jsToUpper pattern ++ ".LIB"
  else
    "/QSYS.LIB/" ++ jsToUpper pattern ++ ".LIB"

/-- The global single-quote replacement of
`arg.replace(/'/g, "'\"'\"'")` on the character list. -/
def escapeQuotes : List Char → List Char
  | [] => []
  | c :: rest =>
    if c = '\'' then '\'' :: '"' :: '\'' :: '"' :: '\'' :: escapeQuotes rest
    else c :: escapeQuotes rest

/-- `FastPfuriousExecutor.escapeShellArgument`: wrap in single quotes,
doubling embedded single quotes. -/
def escapeShellArgument (arg : String) : String :=
  "'" ++ String.mk (escapeQuotes arg.data) ++ "'"

/-- The ordered flag list pushed by
`FastPfuriousExecutor.buildPFGREPCommandForPattern`. -/
def buildPFGREPFlags (options : FastPfuriousOptions) : List String :=
  (if !options.caseSensitive then ["-i"] else []) ++
  (if !options.smartSearchRegex then ["-F"] else []) ++
  ["-r", "-n", "-H", "-m 5000"] ++
  (if options.afterContext > 0 then ["-A " ++ toString options.afterContext] else [])

/-- `FastPfuriousExecutor.buildPFGREPCommandForPattern`: the full command
string.  `pfgrepPath` stands for `ConnectionManager.getPFGREPPath()`,
an external collaborator. -/
def buildPFGREPCommandForPattern (pfgrepPath : String) (pattern : String)
    (options : FastPfuriousOptions) : String :=
  let flags := buildPFGREPFlags options
  let flagString := if flags.length > 0 then String.intercalate (" ") flags ++ " " else ""
  let escapedTerm := escapeShellArgument options.searchTerm
  let libraryPath := buildLibraryPath pattern
  pfgrepPath ++ " " ++ flagString ++ escapedTerm ++ " " ++ libraryPath

/-- The message remapping performed by the `catch` block of
`executePFGREPCommand` on every error thrown inside its `try` block. -/
def remapCaughtError (message : String) : String :=
  if jsIncludes message ("connection") then "Connection lost to IBM i system"
  else if jsIncludes message ("cancelled") then "Search cancelled by user"
  else message

/-- The `try` block of `FastPfuriousExecutor.executePFGREPCommand` after
`sendCommand` returned: cancellation check, then the exit-code contract
(0 and 1 are success), then stderr-substring classification. -/
def pfgrepTryResult (cancelRequested : Bool) (result : CommandResult) :
    Except String String :=
  if cancelRequested then .error ("Search cancelled by user")
  else if result.code = 0 ∨ result.code = 1 then .ok result.stdout
  else if jsIncludes result.stderr ("Permission denied") then
    .error ("Don't have authority to that library")
  else if jsIncludes result.stderr ("No such file or directory") then
    .error ("Library does not exist or is not accessible")
  else .error (if result.stderr = "" then "PFGREP command failed" else result.stderr)

/-- `FastPfuriousExecutor.executePFGREPCommand` for a completed
`sendCommand` round trip: the `try` body followed by the `catch` block's
remapping of the thrown message. -/
def executePFGREPCommand (cancelRequested : Bool) (result : CommandResult) :
    Except String String :=
  match pfgrepTryResult cancelRequested result with
  | .ok stdout => .ok stdout
  | .error message => .error (remapCaughtError message)

/-- The anchored JavaScript regex `^([^:]+):(\d+):(.*)$` used for match
lines.  Backtracking is deterministic here: the path capture is exactly
the run of non-colon characters before the first colon, and the digit
capture is the maximal digit run after it, which must be followed by a
colon. -/
def matchLineRe (line : String) : Option (String × Nat × String) :=
  let cs := line.data
  let p := cs.takeWhile (fun c => c != ':')
  if p.isEmpty then none
  else
    match cs.drop p.length with
    | [] => none
    | _ :: afterColon =>
      let ds := afterColon.takeWhile Char.isDigit
      if ds.isEmpty then none
      else
        match afterColon.drop ds.length with
        | ':' :: content => some (String.mk p, digitsToNat ds, String.mk content)
        | _ => none

/-- Validity of split position `i` for the anchored JavaScript regex
`^([^:]+)-(\d+)-(.*)$`: a non-empty colon-free prefix of length `i`, a
hyphen, a non-empty maximal digit run, and another hyphen. -/
def ctxValidAt (cs : List Char) (i : Nat) : Bool :=
  let p := cs.take i
  match cs.drop i with
  | '-' :: afterDash =>
    let ds := afterDash.takeWhile Char.isDigit
    decide (0 < i) && p.all (fun c => c != ':') && !ds.isEmpty &&
      (match afterDash.drop ds.length with
       | '-' :: _ => true
       | _ => false)
  | _ => false

/-- The anchored JavaScript regex `^([^:]+)-(\d+)-(.*)$` used for context
lines.  The greedy `[^:]+` capture makes the engine commit to the largest
valid split position, which `find?` over the reversed range realizes. -/
def contextLineRe (line : String) : Option (String × Nat × String) :=
  let cs := line.data
  match (List.range cs.length).reverse.find? (ctxValidAt cs) with
  | none => none
  | some i =>
    let p := cs.take i
    let afterDash := cs.drop (i + 1)
    let ds := afterDash.takeWhile Char.isDigit
    some (String.mk p, digitsToNat ds, String.mk (afterDash.drop (ds.length + 1)))

/-- The `memberPart.replace(/\.MBR$/, '')` step of `extractMemberName`. -/
def stripMBRSuffix (s : String) : String :=
  if isPrefixCharList (".MBR".data.reverse) s.data.reverse then
    String.mk (s.data.take (s.data.length - 4))
  else s

/-- `FastPfuriousExecutor.extractMemberName`: display label derived from a
QSYS path. -/
def extractMemberName (qsysPath : String) : String :=
  let parts := jsSplit qsysPath '/'
  if parts.length ≥ 5 then stripMBRSuffix (parts.getD 4 "")
  else qsysPath

/-- The `hitMap` lookup-or-create step of `parsePFGREPOutputToHits`: the
source mutates the shared `Hit` object held by both the map and the
array, which on an association-list state is appending the new line to
the entry with that path, or appending a fresh `Hit` when none exists. -/
def addLine (hits : List SearchHit) (path : String) (num : Nat)
    (content : String) (isCtx : Bool) : List SearchHit :=
  if hits.any (fun h => h.path == path) then
    hits.map (fun h =>
      if h.path == path then { h with lines := h.lines ++ [⟨num, content, isCtx⟩] } else h)
  else
    hits ++ [{ path := path, lines := [⟨num, content, isCtx⟩], readonly := false,
               label := extractMemberName path }]

/-- The per-line body of the parsing loop: skip separator lines, try the
match-line regex, then the context-line regex, ignore anything else. -/
def parseStep (hits : List SearchHit) (line : String) : List SearchHit :=
  if line = "--" ∨ jsTrim line = "--" then hits
  else
    match matchLineRe line with
    | some (path, lineNum, content) => addLine hits path lineNum (jsTrim content) false
    | none =>
      match contextLineRe line with
      | some (path, lineNum, content) => addLine hits path lineNum (jsTrim content) true
      | none => hits

/-- `FastPfuriousExecutor.parsePFGREPOutputToHits`: split stdout on
newlines, keep lines that are non-empty after trimming, and fold the
per-line step starting from no hits. -/
def parsePFGREPOutputToHits (output : String) : List SearchHit :=
  let lines := (jsSplit output '\n').filter (fun line => jsTrim line != "")
  lines.foldl parseStep []

/-- The aggregate state of one `executeSearch` request: the running
`allHits` and `errors` accumulators, plus the ghost record `dispatched`
of every pattern handed to `executePatternSearch`, in dispatch order
(recorded here so that claims about which batches were started can be
stated; the source has no corresponding data, only the calls
themselves).  The source returns `hits` inside `SearchResults` and
surfaces `errors` through the aggregated error notification. -/
structure SearchOutcome where
  hits : List SearchHit
  errors : List PatternError
  dispatched : List String
deriving DecidableEq

/-- `FastPfuriousExecutor.executePatternSearch`: build the command for the
pattern, run it, parse its stdout on success, and wrap any thrown message
with the pattern context.  `env` is the remote executor
(`connection.sendCommand`, indexed by the command string) and
`cancel pattern` is the value of this pattern's
`cancellationToken.token.isCancellationRequested` at the point where
`executePFGREPCommand` checks it. -/
def executePatternSearch (env : String → CommandResult) (cancel : String → Bool)
    (pfgrepPath : String) (options : FastPfuriousOptions) (pattern : String) :
    Except String (List SearchHit) :=
  let command := buildPFGREPCommandForPattern pfgrepPath pattern options
  match executePFGREPCommand (cancel pattern) (env command) with
  | .ok output => .ok (parsePFGREPOutputToHits output)
  | .error message => .error ("Pattern \"" ++ pattern ++ "\": " ++ message)

/-- The per-settled-result body of the batch loop in `executeSearch`:
a fulfilled pattern appends its hits to `allHits`, a rejected one appends
a `PatternError` with `reason?.message || 'Unknown error'`. -/
def processSettled (env : String → CommandResult) (cancel : String → Bool)
    (pfgrepPath : String) (options : FastPfuriousOptions)
    (acc : SearchOutcome) (pattern : String) : SearchOutcome :=
  match executePatternSearch env cancel pfgrepPath options pattern with
  | .ok patternHits => { acc with hits := acc.hits ++ patternHits }
  | .error message =>
    { acc with errors :=
        acc.errors ++ [⟨pattern, if message = "" then "Unknown error" else message⟩] }

/-- The slices taken by the loop
`for (let i = 0; i < patterns.length; i += maxParallel)`, namely
`patterns.slice(i, min(i + maxParallel, patterns.length))`, written with
explicit fuel so the definition is structurally recursive.  Each step
consumes at least one pattern, so `patterns.length` fuel is exact for
`0 < maxParallel`; for `maxParallel = 0` the source loop would never
advance, and the model is only used under `0 < maxParallel`. -/
def mkBatchesAux (maxParallel : Nat) : Nat → List String → List (List String)
  | 0, _ => []
  | _ + 1, [] => []
  | fuel + 1, p :: rest =>
    ((p :: rest).take maxParallel) :: mkBatchesAux maxParallel fuel ((p :: rest).drop maxParallel)

/-- The batch partition of the pattern list used by `executeSearch`. -/
def mkBatches (maxParallel : Nat) (patterns : List String) : List (List String) :=
  mkBatchesAux maxParallel patterns.length patterns

/-- The batch loop of `executeSearch`: check the local `cancelled` flag,
dispatch the whole batch, fold the settled results in index order, and
continue with the next batch.  The flag is initialized to `false` by the
caller and — exactly as in the source, where it is never assigned — is
passed through unchanged. -/
def runBatches (env : String → CommandResult) (cancel : String → Bool)
    (pfgrepPath : String) (options : FastPfuriousOptions) :
    List (List String) → Bool → SearchOutcome → SearchOutcome
  | [], _, acc => acc
  | batch :: rest, cancelled, acc =>
    if cancelled then acc
    else
      let accDispatched := { acc with dispatched := acc.dispatched ++ batch }
      let accProcessed := batch.foldl (processSettled env cancel pfgrepPath options) accDispatched
      runBatches env cancel pfgrepPath options rest cancelled accProcessed

/-- `FastPfuriousExecutor.executeSearch` for a connected session: split
the patterns, fail when none remain, and run the batches with the
`cancelled` flag starting (and staying) `false`.  The progress callback
and the error notification only observe the accumulators and are not
modelled; `maxParallel` stands for the collaborator-supplied
`settingsManager.getMaxParallelSearches()`. -/
def executeSearch (options : FastPfuriousOptions) (pfgrepPath : String)
    (env : String → CommandResult) (cancel : String → Bool) (maxParallel : Nat) :
    Except String SearchOutcome :=
  let patterns := splitPatterns options.libraries
  if patterns.length = 0 then .error ("No valid library patterns provided")
  else .ok (runBatches env cancel pfgrepPath options (mkBatches maxParallel patterns) false ⟨[], [], []⟩)

/-- The hits a single settled pattern contributes to the aggregate: its
parsed hits when fulfilled, nothing when rejected. -/
def settledHits (env : String → CommandResult) (cancel : String → Bool)
    (pfgrepPath : String) (options : FastPfuriousOptions) (pattern : String) :
    List SearchHit :=
  match executePatternSearch env cancel pfgrepPath options pattern with
  | .ok patternHits => patternHits
  | .error _ => []

lemma mkBatchesAux_nil (m : Nat) (fuel : Nat) : mkBatchesAux m fuel [] = [] := by
  cases fuel <;> rfl

/-- The fuel of `mkBatchesAux` is irrelevant as long as it covers the
pattern count (for a positive batch size, each step consumes at least
one pattern). -/
lemma mkBatchesAux_congr (m : Nat) (hm : 0 < m) :
    ∀ fuel fuel' (ps : List String), ps.length ≤ fuel → ps.length ≤ fuel' →
      mkBatchesAux m fuel ps = mkBatchesAux m fuel' ps := by
  intro fuel
  induction fuel with
  | zero =>
    intro fuel' ps hf hf'
    have hps : ps = [] := List.length_eq_zero.mp (Nat.le_zero.mp hf)
    subst hps
    rw [mkBatchesAux_nil, mkBatchesAux_nil]
  | succ n ih =>
    intro fuel' ps hf hf'
    cases ps with
    | nil => rw [mkBatchesAux_nil, mkBatchesAux_nil]
    | cons p rest =>
      cases fuel' with
      | zero => simp at hf'
      | succ n' =>
        simp only [mkBatchesAux]
        congr 1
        simp only [List.length_cons] at hf hf'
        apply ih
        · simp only [List.length_drop, List.length_cons]
          omega
        · simp only [List.length_drop, List.length_cons]
          omega

/-- Unfolding equation of `mkBatches` on a non-empty pattern list. -/
lemma mkBatches_cons (m : Nat) (hm : 0 < m) (p : String) (rest : List String) :
    mkBatches m (p :: rest) =
      ((p :: rest).take m) :: mkBatches m ((p :: rest).drop m) := by
  unfold mkBatches
  simp only [List.length_cons, mkBatchesAux]
  congr 1
  apply mkBatchesAux_congr m hm
  · simp only [List.length_drop, List.length_cons]
    omega
  · exact le_rfl

/-- Concatenating the batches gives back the pattern list. -/
lemma mkBatches_join (m : Nat) (hm : 0 < m) (ps : List String) :
    (mkBatches m ps).flatten = ps := by
  suffices h : ∀ n (ps : List String), ps.length ≤ n → (mkBatches m ps).flatten = ps from
    h ps.length ps le_rfl
  intro n
  induction n with
  | zero =>
    intro ps hps
    have : ps = [] := List.length_eq_zero.mp (Nat.le_zero.mp hps)
    subst this
    rfl
  | succ n ih =>
    intro ps hps
    cases ps with
    | nil => rfl
    | cons p rest =>
      rw [mkBatches_cons m hm, List.flatten_cons]
      rw [ih ((p :: rest).drop m)
        (by simp only [List.length_drop, List.length_cons]
            simp only [List.length_cons] at hps
            omega)]
      exact List.take_append_drop m (p :: rest)

/-- The number of batches is the ceiling of patterns over batch size. -/
lemma mkBatches_length (m : Nat) (hm : 0 < m) (ps : List String) :
    (mkBatches m ps).length = (ps.length + m - 1) / m := by
  suffices h : ∀ n (ps : List String), ps.length ≤ n →
      (mkBatches m ps).length = (ps.length + m - 1) / m from h ps.length ps le_rfl
  intro n
  induction n with
  | zero =>
    intro ps hps
    have : ps = [] := List.length_eq_zero.mp (Nat.le_zero.mp hps)
    subst this
    simp [mkBatches, mkBatchesAux_nil, Nat.div_eq_of_lt (by omega : m - 1 < m)]
  | succ n ih =>
    intro ps hps
    cases ps with
    | nil => simp [mkBatches, mkBatchesAux_nil, Nat.div_eq_of_lt (by omega : m - 1 < m)]
    | cons p rest =>
      rw [mkBatches_cons m hm]
      simp only [List.length_cons] at hps ⊢
      rw [ih ((p :: rest).drop m)
        (by simp only [List.length_drop, List.length_cons]; omega)]
      simp only [List.length_drop, List.length_cons]
      have e2 : rest.length + 1 + m - 1 = (rest.length + 1 - 1) + m := by omega
      rw [e2, Nat.add_div_right _ hm]
      by_cases hcase : m ≤ rest.length + 1
      · have e1 : rest.length + 1 - m + m - 1 = rest.length + 1 - 1 := by omega
        rw [e1]
      · have e1 : rest.length + 1 - m + m - 1 = m - 1 := by omega
        rw [e1, Nat.div_eq_of_lt (by omega), Nat.div_eq_of_lt (by omega)]

/-- Every batch is at most the configured batch size. -/
lemma mkBatches_batch_le (m : Nat) (hm : 0 < m) (ps : List String) :
    ∀ b ∈ mkBatches m ps, b.length ≤ m := by
  suffices h : ∀ n (ps : List String), ps.length ≤ n →
      ∀ b ∈ mkBatches m ps, b.length ≤ m from h ps.length ps le_rfl
  intro n
  induction n with
  | zero =>
    intro ps hps
    have : ps = [] := List.length_eq_zero.mp (Nat.le_zero.mp hps)
    subst this
    intro b hb
    simp [mkBatches, mkBatchesAux_nil] at hb
  | succ n ih =>
    intro ps hps
    cases ps with
    | nil => intro b hb; simp [mkBatches, mkBatchesAux_nil] at hb
    | cons p rest =>
      rw [mkBatches_cons m hm]
      intro b hb
      rcases List.mem_cons.mp hb with hb | hb
      · subst hb
        simp only [List.length_take]
        exact min_le_left _ _
      · exact ih ((p :: rest).drop m)
          (by simp only [List.length_drop, List.length_cons]
              simp only [List.length_cons] at hps
              omega) b hb

/-- Every batch except possibly the last has exactly the configured
batch size. -/
lemma mkBatches_nonlast_full (m : Nat) (hm : 0 < m) (ps : List String) :
    ∀ i, i + 1 < (mkBatches m ps).length → ((mkBatches m ps).getD i []).length = m := by
  suffices h : ∀ n (ps : List String), ps.length ≤ n →
      ∀ i, i + 1 < (mkBatches m ps).length →
        ((mkBatches m ps).getD i []).length = m from h ps.length ps le_rfl
  intro n
  induction n with
  | zero =>
    intro ps hps
    have : ps = [] := List.length_eq_zero.mp (Nat.le_zero.mp hps)
    subst this
    intro i hi
    simp [mkBatches, mkBatchesAux_nil] at hi
  | succ n ih =>
    intro ps hps
    cases ps with
    | nil => intro i hi; simp [mkBatches, mkBatchesAux_nil] at hi
    | cons p rest =>
      rw [mkBatches_cons m hm]
      intro i hi
      cases i with
      | zero =>
        have hdrop : (p :: rest).drop m ≠ [] := by
          intro hd
          rw [hd] at hi
          simp [mkBatches, mkBatchesAux_nil] at hi
        have hlen : m < rest.length + 1 := by
          by_contra hle
          exact hdrop (List.drop_eq_nil_iff.mpr (by simp only [List.length_cons]; omega))
        simp only [List.getD_cons_zero, List.length_take, List.length_cons]
        omega
      | succ j =>
        simp only [List.getD_cons_succ]
        simp only [List.length_cons] at hi
        exact ih ((p :: rest).drop m)
          (by simp only [List.length_drop, List.length_cons]
              simp only [List.length_cons] at hps
              omega) j (by omega)

/-- The dispatched-patterns record is untouched by result processing. -/
lemma processSettled_dispatched (env : String → CommandResult) (cancel : String → Bool)
    (pfgrepPath : String) (options : FastPfuriousOptions)
    (acc : SearchOutcome) (pattern : String) :
    (processSettled env cancel pfgrepPath options acc pattern).dispatched =
      acc.dispatched := by
  unfold processSettled
  cases executePatternSearch env cancel pfgrepPath options pattern <;> rfl

/-- Processing one settled pattern appends exactly its contributed hits. -/
lemma processSettled_hits (env : String → CommandResult) (cancel : String → Bool)
    (pfgrepPath : String) (options : FastPfuriousOptions)
    (acc : SearchOutcome) (pattern : String) :
    (processSettled env cancel pfgrepPath options acc pattern).hits =
      acc.hits ++ settledHits env cancel pfgrepPath options pattern := by
  unfold processSettled settledHits
  cases executePatternSearch env cancel pfgrepPath options pattern <;> simp

lemma foldl_processSettled_dispatched (env : String → CommandResult)
    (cancel : String → Bool) (pfgrepPath : String) (options : FastPfuriousOptions) :
    ∀ (batch : List String) (acc : SearchOutcome),
      (batch.foldl (processSettled env cancel pfgrepPath options) acc).dispatched =
        acc.dispatched := by
  intro batch
  induction batch with
  | nil => intro acc; rfl
  | cons p rest ih =>
    intro acc
    simp only [List.foldl_cons]
    rw [ih, processSettled_dispatched]

lemma foldl_processSettled_hits (env : String → CommandResult)
    (cancel : String → Bool) (pfgrepPath : String) (options : FastPfuriousOptions) :
    ∀ (batch : List String) (acc : SearchOutcome),
      (batch.foldl (processSettled env cancel pfgrepPath options) acc).hits =
        acc.hits ++ (batch.map (settledHits env cancel pfgrepPath options)).flatten := by
  intro batch
  induction batch with
  | nil => intro acc; simp
  | cons p rest ih =>
    intro acc
    simp only [List.foldl_cons, List.map_cons, List.flatten_cons]
    rw [ih, processSettled_hits, List.append_assoc]

/-- With the (never-assigned) cancelled flag false, the batch loop
dispatches every batch in order. -/
lemma runBatches_dispatched (env : String → CommandResult) (cancel : String → Bool)
    (pfgrepPath : String) (options : FastPfuriousOptions) :
    ∀ (bs : List (List String)) (acc : SearchOutcome),
      (runBatches env cancel pfgrepPath options bs false acc).dispatched =
        acc.dispatched ++ bs.flatten := by
  intro bs
  induction bs with
  | nil => intro acc; simp [runBatches]
  | cons b rest ih =>
    intro acc
    simp only [runBatches, if_neg (by simp : ¬(false = true)), List.flatten_cons]
    rw [ih, foldl_processSettled_dispatched]
    simp [List.append_assoc]

/-- With the cancelled flag false, the hits accumulated by the batch loop
are the concatenation, in pattern order, of each settled pattern's
contributed hits. -/
lemma runBatches_hits (env : String → CommandResult) (cancel : String → Bool)
    (pfgrepPath : String) (options : FastPfuriousOptions) :
    ∀ (bs : List (List String)) (acc : SearchOutcome),
      (runBatches env cancel pfgrepPath options bs false acc).hits =
        acc.hits ++ ((bs.flatten).map (settledHits env cancel pfgrepPath options)).flatten := by
  intro bs
  induction bs with
  | nil => intro acc; simp [runBatches]
  | cons b rest ih =>
    intro acc
    simp only [runBatches, if_neg (by simp : ¬(false = true)), List.flatten_cons]
    rw [ih, foldl_processSettled_hits]
    simp [List.append_assoc]

/-- A two-character string is never of the form `"-A " ++ t`, whose length
is at least three. -/
lemma length_two_ne_A (s t : String) (hs : s.length = 2) : s ≠ "-A " ++ t := by
  intro h
  have h2 := congrArg String.length h
  rw [String.length_append, hs] at h2
  rw [show ("-A " : String).length = 3 from rfl] at h2
  omega

/-- C9: parsing the stdout
`"/QSYS.LIB/ACME.LIB/QRPGLESRC.FILE/PGM1.MBR:10:DCL-S X;\n--\n/QSYS.LIB/ACME.LIB/QRPGLESRC.FILE/PGM1.MBR-11-  X = 1;"`
yields exactly one Hit for that resource path, with exactly two lines:
line 10 as a match (isContext false) and line 11 as a context line
(isContext true); the pure separator line `--` is discarded. -/
theorem C9_parse_separator_example :
    parsePFGREPOutputToHits
        ("/QSYS.LIB/ACME.LIB/QRPGLESRC.FILE/PGM1.MBR:10:DCL-S X;\n--\n/QSYS.LIB/ACME.LIB/QRPGLESRC.FILE/PGM1.MBR-11-  X = 1;") =
      [⟨"/QSYS.LIB/ACME.LIB/QRPGLESRC.FILE/PGM1.MBR",
        [⟨10, "DCL-S X;", false⟩, ⟨11, "X = 1;", true⟩], false, "PGM1"⟩] := by
  decide

/-- C8 counterexample: the pattern `A*B` has a wildcard in a non-trailing
position of a segment, yet resolution does not fail with InvalidPattern:
`buildLibraryPath` is total and maps it to a resource path. -/
theorem C8_counterexample : buildLibraryPath ("A*B") = "/QSYS.LIB/A*B.LIB" := by
  decide

/-- C8 amended: `buildLibraryPath` never rejects a pattern.  Every
slash-free pattern other than the `*ALL`/`ALL` sentinels — wildcards in
any position included — resolves to the uppercased library path. -/
theorem C8_wildcard_passthrough (pattern : String)
    (hslash : jsIncludes pattern ("/") = false)
    (hall1 : pattern ≠ "*ALL") (hall2 : pattern ≠ "ALL") :
    buildLibraryPath pattern = "/QSYS.LIB/" ++ jsToUpper pattern ++ ".LIB" := by
  unfold buildLibraryPath
  rw [hslash]
  simp [hall1, hall2]

/-- C8 witness: the amended statement applied to the wildcard-in-the-middle
pattern `A*B`. -/
theorem C8_wildcard_passthrough_witness :
    jsIncludes ("A*B") ("/") = false ∧ ("A*B" : String) ≠ "*ALL" ∧
      ("A*B" : String) ≠ "ALL" ∧
      buildLibraryPath ("A*B") = "/QSYS.LIB/" ++ jsToUpper ("A*B") ++ ".LIB" :=
  ⟨by decide, by decide, by decide,
    C8_wildcard_passthrough ("A*B") (by decide) (by decide) (by decide)⟩

/-- C6 counterexample: with exit code 2 and stderr
`"connection reset by peer"` — matching neither classified substring —
the surfaced failure message is NOT the stderr text verbatim: the `catch`
block rewrites any message containing `connection` to the
connection-lost message. -/
theorem C6_counterexample :
    executePFGREPCommand false ⟨2, "", "connection reset by peer"⟩ =
        Except.error ("Connection lost to IBM i system") ∧
      ("Connection lost to IBM i system" : String) ≠ "connection reset by peer" := by
  exact ⟨by rfl, by decide⟩

/-- C6 amended: for a non-cancelled execution, exit codes 0 and 1 are
success returning stdout; any other exit code is a failure classified by
stderr substrings — `Permission denied` and `No such file or directory`
map to their fixed messages, and otherwise stderr is surfaced verbatim
provided it is non-empty and contains neither `connection` nor
`cancelled` (an empty stderr becomes the generic tool-failure message,
and those two substrings are rewritten by the `catch` block). -/
theorem C6_exit_code_classification (result : CommandResult) :
    ((result.code = 0 ∨ result.code = 1) →
      executePFGREPCommand false result = Except.ok result.stdout) ∧
    (result.code ≠ 0 → result.code ≠ 1 →
      (jsIncludes result.stderr ("Permission denied") = true →
        executePFGREPCommand false result =
          Except.error ("Don't have authority to that library")) ∧
      (jsIncludes result.stderr ("Permission denied") = false →
        jsIncludes result.stderr ("No such file or directory") = true →
        executePFGREPCommand false result =
          Except.error ("Library does not exist or is not accessible")) ∧
      (jsIncludes result.stderr ("Permission denied") = false →
        jsIncludes result.stderr ("No such file or directory") = false →
        result.stderr ≠ "" →
        jsIncludes result.stderr ("connection") = false →
        jsIncludes result.stderr ("cancelled") = false →
        executePFGREPCommand false result = Except.error result.stderr)) := by
  constructor
  · intro h
    unfold executePFGREPCommand pfgrepTryResult
    simp [h]
  · intro h0 h1
    refine ⟨?_, ?_, ?_⟩
    · intro hp
      unfold executePFGREPCommand pfgrepTryResult remapCaughtError
      simp [h0, h1, hp]
      decide
    · intro hp hn
      unfold executePFGREPCommand pfgrepTryResult remapCaughtError
      simp [h0, h1, hp, hn]
      decide
    · intro hp hn hne hconn hcanc
      unfold executePFGREPCommand pfgrepTryResult remapCaughtError
      simp [h0, h1, hp, hn, hne, hconn, hcanc]

/-- C6 witness: the amended classification applied at concrete results:
exit 0 succeeds with stdout, exit 2 with unclassified stderr surfaces it
verbatim, and exit 2 with a `Permission denied` stderr maps to the
authority message. -/
theorem C6_exit_code_classification_witness :
    executePFGREPCommand false ⟨0, "hello", ""⟩ = Except.ok ("hello") ∧
      executePFGREPCommand false ⟨2, "", "weird failure"⟩ =
        Except.error ("weird failure") ∧
      executePFGREPCommand false ⟨2, "", "x Permission denied"⟩ =
        Except.error ("Don't have authority to that library") :=
  ⟨(C6_exit_code_classification ⟨0, "hello", ""⟩).1 (Or.inl rfl),
    ((C6_exit_code_classification ⟨2, "", "weird failure"⟩).2 (by decide)
          (by decide)).2.2 (by decide) (by decide) (by decide) (by decide) (by decide),
    ((C6_exit_code_classification ⟨2, "", "x Permission denied"⟩).2 (by decide)
        (by decide)).1 (by decide)⟩

/-- C3: for a positive maxParallel, executeSearch partitions the patterns
into ceil(n/m) sequential batches of exactly m patterns except a possibly
smaller final batch; with m = 2 and 5 patterns the batch sizes are 2, 2, 1;
and every split pattern is dispatched batch by batch in order (the
in-flight bound is the batch size, since the loop awaits the settlement of
a whole batch before dispatching the next). -/
theorem C3_batch_partition (maxParallel : Nat) (hm : 0 < maxParallel)
    (patterns : List String) :
    (mkBatches maxParallel patterns).length = (patterns.length + maxParallel - 1) / maxParallel ∧
    (mkBatches maxParallel patterns).flatten = patterns ∧
    (∀ b ∈ mkBatches maxParallel patterns, b.length ≤ maxParallel) ∧
    (∀ i, i + 1 < (mkBatches maxParallel patterns).length →
      ((mkBatches maxParallel patterns).getD i []).length = maxParallel) ∧
    (mkBatches 2 ["P1", "P2", "P3", "P4", "P5"]).map List.length = [2, 2, 1] ∧
    (∀ (options : FastPfuriousOptions) (pfgrepPath : String)
        (env : String → CommandResult) (cancel : String → Bool) (out : SearchOutcome),
      executeSearch options pfgrepPath env cancel maxParallel = Except.ok out →
      out.dispatched = splitPatterns options.libraries) := by
  refine ⟨mkBatches_length _ hm _, mkBatches_join _ hm _, mkBatches_batch_le _ hm _,
    mkBatches_nonlast_full _ hm _, by decide, ?_⟩
  intro options pfgrepPath env cancel out hout
  simp only [executeSearch] at hout
  by_cases hp : (splitPatterns options.libraries).length = 0
  · rw [if_pos hp] at hout
    exact absurd hout (by simp)
  · rw [if_neg hp] at hout
    injection hout with h
    rw [← h, runBatches_dispatched, mkBatches_join _ hm]
    rfl

/-- C3 witness: the batch structure instantiated at maxParallel 2 and the
five-pattern list. -/
theorem C3_batch_partition_witness :
    0 < 2 ∧ (mkBatches 2 ["P1", "P2", "P3", "P4", "P5"]).flatten =
      ["P1", "P2", "P3", "P4", "P5"] :=
  ⟨by decide, (C3_batch_partition 2 (by decide) ["P1", "P2", "P3", "P4", "P5"]).2.1⟩

/-- The path sequence produced by a lookup-or-create step: unchanged when
the path is already keyed, extended by the new path otherwise. -/
lemma addLine_paths (hits : List SearchHit) (path : String) (num : Nat)
    (content : String) (isCtx : Bool) :
    (addLine hits path num content isCtx).map SearchHit.path =
      if hits.any (fun h => h.path == path) then hits.map SearchHit.path
      else hits.map SearchHit.path ++ [path] := by
  unfold addLine
  split
  · rw [List.map_map]
    have hfun : (SearchHit.path ∘ fun h =>
        if h.path == path then { h with lines := h.lines ++ [⟨num, content, isCtx⟩] } else h) =
        SearchHit.path := by
      funext h
      by_cases hh : h.path = path <;> simp [hh]
    rw [hfun]
  · simp

/-- A lookup-or-create step preserves distinctness of the hit paths. -/
lemma addLine_paths_nodup (hits : List SearchHit) (path : String) (num : Nat)
    (content : String) (isCtx : Bool) (h : (hits.map SearchHit.path).Nodup) :
    ((addLine hits path num content isCtx).map SearchHit.path).Nodup := by
  rw [addLine_paths]
  split
  · exact h
  · rename_i hany
    have hnotmem : path ∉ hits.map SearchHit.path := by
      intro hmem
      rcases List.mem_map.mp hmem with ⟨x, hx, hxpath⟩
      exact hany (List.any_eq_true.mpr ⟨x, hx, by simp [hxpath]⟩)
    exact List.Nodup.append h (List.nodup_singleton _)
      (fun a ha hb => by rw [List.mem_singleton.mp hb] at ha; exact hnotmem ha)

/-- One parsing-loop iteration preserves distinctness of the hit paths. -/
lemma parseStep_paths_nodup (hits : List SearchHit) (line : String)
    (h : (hits.map SearchHit.path).Nodup) :
    ((parseStep hits line).map SearchHit.path).Nodup := by
  unfold parseStep
  split
  · exact h
  · cases hml : matchLineRe line with
    | some t =>
      obtain ⟨path, lineNum, content⟩ := t
      exact addLine_paths_nodup _ _ _ _ _ h
    | none =>
      cases hcl : contextLineRe line with
      | some t =>
        obtain ⟨path, lineNum, content⟩ := t
        exact addLine_paths_nodup _ _ _ _ _ h
      | none => exact h

lemma foldl_parseStep_paths_nodup :
    ∀ (lines : List String) (hits : List SearchHit),
      (hits.map SearchHit.path).Nodup →
      ((lines.foldl parseStep hits).map SearchHit.path).Nodup := by
  intro lines
  induction lines with
  | nil => intro hits h; exact h
  | cons l rest ih =>
    intro hits h
    exact ih _ (parseStep_paths_nodup _ _ h)

/-- C1 amended: deduplication by resourcePath holds WITHIN one pattern's
parsed output — `parsePFGREPOutputToHits` never yields two Hits with the
same path — but `executeSearch` concatenates per-pattern hit lists
without any cross-pattern merge, so the same resourcePath can appear in
two Hit entries of the final result (see the counterexample). -/
theorem C1_parse_paths_nodup (output : String) :
    ((parsePFGREPOutputToHits output).map SearchHit.path).Nodup := by
  unfold parsePFGREPOutputToHits
  exact foldl_parseStep_paths_nodup _ [] (by simp)

def dupOptions : FastPfuriousOptions := ⟨"X", ["L1,L2"], false, false, 0⟩

def dupEnv : String → CommandResult :=
  fun _ => ⟨0, "/QSYS.LIB/A.LIB/F.FILE/M.MBR:1:x", ""⟩

def dupHit : SearchHit :=
  ⟨"/QSYS.LIB/A.LIB/F.FILE/M.MBR", [⟨1, "x", false⟩], false, "M"⟩

/-- C1 counterexample: two patterns whose executions both hit the same
resource path yield TWO Hit entries for that path in the final
SearchResult — the hits of different patterns are appended, never merged,
so the claimed at-most-one-Hit-per-path invariant fails. -/
theorem C1_counterexample :
    executeSearch dupOptions ("/usr/bin/pfgrep") dupEnv (fun _ => false) 2 =
        Except.ok ⟨[dupHit, dupHit], [], ["L1", "L2"]⟩ ∧
      ¬ (([dupHit, dupHit].map SearchHit.path).Nodup) := by
  exact ⟨by rfl, by decide⟩

def unsortedOptions : FastPfuriousOptions := ⟨"X", ["L1"], false, false, 0⟩

def unsortedEnv : String → CommandResult :=
  fun _ => ⟨0, "/QSYS.LIB/B.LIB/F.FILE/M.MBR:1:x\n/QSYS.LIB/A.LIB/F.FILE/M.MBR:1:y", ""⟩

def unsortedOut : SearchOutcome :=
  ⟨[⟨"/QSYS.LIB/B.LIB/F.FILE/M.MBR", [⟨1, "x", false⟩], false, "M"⟩,
    ⟨"/QSYS.LIB/A.LIB/F.FILE/M.MBR", [⟨1, "y", false⟩], false, "M"⟩], [], ["L1"]⟩

/-- Ordinal (code-point lexicographic) comparison on character lists,
used to state the claimed sort order of hit paths. -/
def ordinalLeCharList : List Char → List Char → Bool
  | [], _ => true
  | _ :: _, [] => false
  | a :: as, b :: bs =>
    decide (a.toNat < b.toNat) || (a = b && ordinalLeCharList as bs)

/-- Ordinal string comparison (the claimed resourcePath sort order). -/
def ordinalLe (a b : String) : Bool := ordinalLeCharList a.data b.data

/-- C2 counterexample: the multi-pattern `executeSearch` applies no final
sort: a stdout whose paths arrive out of order is returned out of order,
so the hit collection is not sorted by resourcePath (ordinal compare). -/
theorem C2_counterexample :
    executeSearch unsortedOptions ("/usr/bin/pfgrep") unsortedEnv (fun _ => false) 2 =
        Except.ok unsortedOut ∧
      ¬ List.Sorted (fun a b : String => ordinalLe a b = true)
          (unsortedOut.hits.map SearchHit.path) := by
  exact ⟨by rfl, by decide⟩

/-- C2 amended: the hits of the final SearchResult are exactly the
concatenation, in pattern order (each pattern in first-seen order), of
the hits contributed by each settled pattern; no sort by resourcePath is
applied in the multi-pattern path (the path sort exists only in the
single-pattern variant's parser), so the order is deterministic in the
pattern list rather than restored by sorting. -/
theorem C2_hits_concat_in_pattern_order (options : FastPfuriousOptions)
    (pfgrepPath : String) (env : String → CommandResult) (cancel : String → Bool)
    (maxParallel : Nat) (hm : 0 < maxParallel) (out : SearchOutcome)
    (hout : executeSearch options pfgrepPath env cancel maxParallel = Except.ok out) :
    out.hits = ((splitPatterns options.libraries).map
      (settledHits env cancel pfgrepPath options)).flatten := by
  simp only [executeSearch] at hout
  by_cases hp : (splitPatterns options.libraries).length = 0
  · rw [if_pos hp] at hout
    exact absurd hout (by simp)
  · rw [if_neg hp] at hout
    injection hout with h
    rw [← h, runBatches_hits, mkBatches_join _ hm]
    rfl

/-- C2 witness: the concatenation characterization applied to the
concrete out-of-order scenario. -/
theorem C2_hits_concat_in_pattern_order_witness :
    0 < 2 ∧ unsortedOut.hits =
      ((splitPatterns unsortedOptions.libraries).map
        (settledHits unsortedEnv (fun _ => false) ("/usr/bin/pfgrep") unsortedOptions)).flatten :=
  ⟨by decide, C2_hits_concat_in_pattern_order unsortedOptions ("/usr/bin/pfgrep")
    unsortedEnv (fun _ => false) 2 (by decide) unsortedOut (by rfl)⟩

def fiveOptions : FastPfuriousOptions := ⟨"X", ["P1", "P2", "P3", "P4", "P5"], false, false, 0⟩

def fiveEnv : String → CommandResult :=
  fun _ => ⟨0, "/QSYS.LIB/A.LIB/F.FILE/M.MBR:1:x", ""⟩

/-- Umbrella cancellation triggered during batch 1 of 3: `cancelSearch`
cancels the tokens of the in-flight batch-1 patterns (P1, P2); patterns
dispatched later create fresh, uncancelled tokens. -/
def batchOneCancelled : String → Bool := fun p => p == "P1" || p == "P2"

def fiveHit : SearchHit :=
  ⟨"/QSYS.LIB/A.LIB/F.FILE/M.MBR", [⟨1, "x", false⟩], false, "M"⟩

/-- C4: evaluation at the failing input.  With 5 patterns, maxParallel 2
and the umbrella cancellation triggered while batch 1 is in flight, the
code still dispatches batches 2 and 3 (all five patterns appear in the
dispatch record) and even includes their hits: the local `cancelled`
flag is never set, so the `if (cancelled) break` guard is dead code. -/
theorem C4_batches_dispatched_after_cancel :
    executeSearch fiveOptions ("/usr/bin/pfgrep") fiveEnv batchOneCancelled 2 =
      Except.ok
        ⟨[fiveHit, fiveHit, fiveHit],
          [⟨"P1", "Pattern \"P1\": Search cancelled by user"⟩,
           ⟨"P2", "Pattern \"P2\": Search cancelled by user"⟩],
          ["P1", "P2", "P3", "P4", "P5"]⟩ := by
  rfl

lemma string_ne_empty_of_length_pos (a : String) (h : 0 < a.length) : a ≠ "" := by
  intro hcontra
  rw [hcontra] at h
  exact absurd h (by decide)

def cancelledOptions : FastPfuriousOptions := ⟨"X", ["L1"], false, false, 0⟩

/-- C5 counterexample: a cancelled pattern is NOT an error-free third
bucket: its rejection is pushed into the errors of the aggregate result
(with the cancellation message), so cancelled patterns are excluded from
hits but included in errors. -/
theorem C5_counterexample :
    executeSearch cancelledOptions ("/usr/bin/pfgrep")
        (fun _ => ⟨0, "", ""⟩) (fun _ => true) 2 =
        Except.ok ⟨[], [⟨"L1", "Pattern \"L1\": Search cancelled by user"⟩], ["L1"]⟩ ∧
      ([⟨"L1", "Pattern \"L1\": Search cancelled by user"⟩] : List PatternError) ≠ [] := by
  exact ⟨by rfl, by decide⟩

/-- C5 amended: a pattern whose cancellation token is set when checked
contributes no hits, but IS recorded as a PatternError carrying the
cancellation message — there is no third outcome bucket distinct from
errors. -/
theorem C5_cancelled_pattern_recorded_as_error (env : String → CommandResult)
    (cancel : String → Bool) (pfgrepPath : String) (options : FastPfuriousOptions)
    (acc : SearchOutcome) (pattern : String) (h : cancel pattern = true) :
    processSettled env cancel pfgrepPath options acc pattern =
      { acc with errors := acc.errors ++
          [⟨pattern, "Pattern \"" ++ pattern ++ "\": Search cancelled by user"⟩] } := by
  have hexec : executePatternSearch env cancel pfgrepPath options pattern =
      Except.error ("Pattern \"" ++ pattern ++ "\": Search cancelled by user") := by
    have hS : (("\": " ++ "Search cancelled by user") : String) =
        "\": Search cancelled by user" := by decide
    unfold executePatternSearch executePFGREPCommand pfgrepTryResult
    rw [h, ← hS, ← String.append_assoc]
    rfl
  have hne : (("Pattern \"" ++ pattern ++ "\": Search cancelled by user") : String) ≠ "" := by
    apply string_ne_empty_of_length_pos
    rw [String.length_append, String.length_append]
    have h9 : (0 : Nat) < ("Pattern \"" : String).length := by decide
    omega
  unfold processSettled
  rw [hexec]
  simp only []
  rw [if_neg hne]

/-- C5 witness: the amended statement applied to a concrete cancelled
pattern. -/
theorem C5_cancelled_pattern_recorded_as_error_witness :
    ((fun _ : String => true) "L1") = true ∧
      processSettled (fun _ => ⟨0, "", ""⟩) (fun _ => true) ("/usr/bin/pfgrep")
          cancelledOptions ⟨[], [], ["L1"]⟩ "L1" =
        ⟨[], [⟨"L1", "Pattern \"L1\": Search cancelled by user"⟩], ["L1"]⟩ :=
  ⟨rfl, C5_cancelled_pattern_recorded_as_error _ _ _ _ _ _ rfl⟩

def permOptions : FastPfuriousOptions := ⟨"X", ["LIBA,LIBB"], false, false, 0⟩

/-- The remote executor for the C7 scenario: pattern A's command fails
with exit 2 and a `Permission denied` stderr, pattern B's command
succeeds with two matching members. -/
def permEnv : String → CommandResult := fun cmd =>
  if cmd = buildPFGREPCommandForPattern ("/usr/bin/pfgrep") "LIBA" permOptions then
    ⟨2, "", "pfgrep: /QSYS.LIB/LIBA.LIB: Permission denied"⟩
  else ⟨0, "/QSYS.LIB/LIBB.LIB/F.FILE/M1.MBR:3:hello X\n/QSYS.LIB/LIBB.LIB/F.FILE/M2.MBR:7:bye X", ""⟩

/-- C7: with pattern LIBA failing (exit 2, Permission denied) and pattern
LIBB succeeding with two matches, the aggregate result holds exactly B's
two hits plus exactly one PatternError naming LIBA with the
permission-denied classification; A's failure does not suppress B. -/
theorem C7_permission_denied_scenario :
    executeSearch permOptions ("/usr/bin/pfgrep") permEnv (fun _ => false) 2 =
      Except.ok
        ⟨[⟨"/QSYS.LIB/LIBB.LIB/F.FILE/M1.MBR", [⟨3, "hello X", false⟩], false, "M1"⟩,
          ⟨"/QSYS.LIB/LIBB.LIB/F.FILE/M2.MBR", [⟨7, "bye X", false⟩], false, "M2"⟩],
          [⟨"LIBA", "Pattern \"LIBA\": Don't have authority to that library"⟩],
          ["LIBA", "LIBB"]⟩ := by
  rfl

/-- C10: every built command carries the forced flags `-r`, `-n`, `-H`
and the hardcoded `-m 5000`; `-i` is present exactly when caseSensitive
is false and `-F` exactly when smartSearchRegex is false; and the full
command string is the executable path, the joined flags, the escaped
term and the resolved library path. -/
theorem C10_flag_construction (pfgrepPath pattern : String)
    (options : FastPfuriousOptions) :
    "-r" ∈ buildPFGREPFlags options ∧
    "-n" ∈ buildPFGREPFlags options ∧
    "-H" ∈ buildPFGREPFlags options ∧
    "-m 5000" ∈ buildPFGREPFlags options ∧
    ("-i" ∈ buildPFGREPFlags options ↔ options.caseSensitive = false) ∧
    ("-F" ∈ buildPFGREPFlags options ↔ options.smartSearchRegex = false) ∧
    buildPFGREPCommandForPattern pfgrepPath pattern options =
      pfgrepPath ++ " " ++ (String.intercalate (" ") (buildPFGREPFlags options) ++ " ") ++
        escapeShellArgument options.searchTerm ++ " " ++ buildLibraryPath pattern := by
  obtain ⟨term, libs, cs, sr, ac⟩ := options
  unfold buildPFGREPCommandForPattern buildPFGREPFlags
  cases cs <;> cases sr <;> by_cases hac : ac > 0 <;>
    simp_all [List.mem_append] <;>
    first
      | exact length_two_ne_A _ _ rfl
      | exact ⟨length_two_ne_A _ _ rfl, length_two_ne_A _ _ rfl⟩

end FastPfurious
